import Mathlib

/-
Verification of the cleanenv configuration-population engine.

The development shallowly embeds the reflective population engine of the
repository (file with readStructMetadata / readEnvVars / parseValue /
parseSlice / parseMap / validStructs) and proves properties about it.

Modelling conventions:
 - Go reflect types are the inductive `Ty`; struct-shaped configuration
   groups are represented structurally by `Node.group`, while the
   "opaque composite" struct types registered in `validStructs`
   (time.Time, url.URL, *time.Location) are leaves.
 - Machine integers use Int/Nat with explicit range checks mirroring
   strconv.ParseInt / strconv.ParseUint with base 0.
 - External library routines that are not part of this repository
   (time.Parse, url.Parse, time.LoadLocation, time.ParseDuration, and
   user-supplied encoding.TextUnmarshaler / Setter implementations) are
   recorded symbolically as an `ExtVal` capturing exactly the arguments
   the engine hands them; a successfully produced external value is
   treated as non-zero by `isZeroVal`.
 - reflect.Value references into the configuration are modelled as
   index paths (`List Nat`) into the `Node` tree; `readEnvVars` threads
   the tree as explicit state.
 - The `Updater` hook of readEnvVars concerns user-supplied callback
   code on the host record; the modelled configuration universe carries
   no such hook, so the hook invocation is omitted.
-/

/-! ## Strings: models of the Go standard-library string helpers used
by the engine (strings.Split, strings.SplitN(·,·,2), strings.TrimSpace). -/

/-- Does the second character list start with the first one? -/
def listStartsWith : List Char → List Char → Bool
  | [], _ => true
  | _ :: _, [] => false
  | p :: ps, c :: cs => p == c && listStartsWith ps cs

/-- Core loop of strings.Split for a non-empty separator, structurally
recursive on a fuel bound: cut the character list at every
non-overlapping occurrence of `sep`. Every step consumes at least one
character, so fuel equal to the list length never runs out (the
fuel-exhausted alternative is unreachable). -/
def splitAuxF (sep : List Char) : Nat → List Char → List (List Char)
  | _, [] => [[]]
  | 0, s => [s]
  | fuel + 1, c :: cs =>
    if 0 < sep.length ∧ listStartsWith sep (c :: cs) = true then
      [] :: splitAuxF sep fuel ((c :: cs).drop sep.length)
    else
      match splitAuxF sep fuel cs with
      | [] => [[c]]
      | p :: ps => (c :: p) :: ps

/-- Cut a character list at every occurrence of a non-empty separator. -/
def splitAux (sep s : List Char) : List (List Char) :=
  splitAuxF sep s.length s

/-- Model of strings.Split: an empty separator explodes the string into
single characters; otherwise cut at every occurrence of the separator. -/
def goSplit (s sep : String) : List String :=
  if sep.data.length = 0 then s.data.map (fun c => String.mk [c])
  else (splitAux sep.data s.data).map String.mk

/-- Model of strings.SplitN(s, sep, 2): split only at the first
occurrence of the separator; the tail keeps later occurrences. -/
def splitN2 (s sep : String) : List String :=
  match goSplit s sep with
  | [] => []
  | [x] => [x]
  | x :: rest => [x, String.intercalate sep rest]

/-- Whitespace test of strings.TrimSpace (unicode.IsSpace restricted to
the code points that occur in configuration strings). -/
def isGoSpace (c : Char) : Bool :=
  c == ' ' || c == '\t' || c == '\n' || c == '\r' ||
  c == Char.ofNat 11 || c == Char.ofNat 12 || c == Char.ofNat 133 || c == Char.ofNat 160

/-- Model of strings.TrimSpace. -/
def goTrimSpace (s : String) : String :=
  String.mk (((s.data.dropWhile isGoSpace).reverse.dropWhile isGoSpace).reverse)

/-- UTF-8 bytes of a string, as natural numbers: the Go conversion
[]byte(value). -/
def stringBytes (s : String) : List Nat :=
  s.toUTF8.toList.map (fun b => b.toNat)

/-! ## Errors produced by the engine. -/

/-- Structured renditions of the error values the engine returns. The
two readEnvVars failure messages (field required / parsing field) are
`requireErr` and `parsingErr`; `parsingErr` keeps the wrapped cause. -/
inductive GoErr where
  | wrongType (kind : String)
  | requireErr (fieldName : String)
  | parsingErr (fieldName : String) (envName : String) (err : GoErr)
  | invalidMapItem (pair : String)
  | parseBoolErr (s : String)
  | parseIntErr (s : String)
  | parseUintErr (s : String)
  | unsupportedType
deriving DecidableEq

/-! ## strconv: models of ParseBool, and ParseInt / ParseUint with
base 0 (sign, then 0x/0o/0b prefixes, a bare leading 0 meaning octal),
including the bit-width range check. Digit-group underscores, which no
configuration in the claims uses, are not accepted by the model. -/

/-- Token set of strconv.ParseBool. -/
def goParseBool (s : String) : Except GoErr Bool :=
  if s = "1" ∨ s = "t" ∨ s = "T" ∨ s = "true" ∨ s = "TRUE" ∨ s = "True" then .ok true
  else if s = "0" ∨ s = "f" ∨ s = "F" ∨ s = "false" ∨ s = "FALSE" ∨ s = "False" then .ok false
  else .error (.parseBoolErr s)

/-- Value of one digit character, hexadecimal at most. -/
def hexDigitVal (c : Char) : Option Nat :=
  if '0' ≤ c ∧ c ≤ '9' then some (c.toNat - '0'.toNat)
  else if 'a' ≤ c ∧ c ≤ 'f' then some (10 + c.toNat - 'a'.toNat)
  else if 'A' ≤ c ∧ c ≤ 'F' then some (10 + c.toNat - 'A'.toNat)
  else none

/-- Accumulate digit characters in the given base; any non-digit (or a
digit not below the base) rejects the whole string. -/
def parseNatDigits (base : Nat) : List Char → Nat → Option Nat
  | [], acc => some acc
  | c :: cs, acc =>
    match hexDigitVal c with
    | some d => if d < base then parseNatDigits base cs (acc * base + d) else none
    | none => none

/-- Base detection of strconv with base argument 0. -/
def detectBase : List Char → Option (Nat × List Char)
  | [] => none
  | '0' :: c :: rest =>
    if c == 'x' || c == 'X' then some (16, rest)
    else if c == 'o' || c == 'O' then some (8, rest)
    else if c == 'b' || c == 'B' then some (2, rest)
    else some (8, c :: rest)
  | cs => some (10, cs)

/-- Model of strconv.ParseUint(s, 0, bits): no sign is accepted, and
the result must fit in `bits` bits. -/
def goParseUint (s : String) (bits : Nat) : Except GoErr Nat :=
  match detectBase s.data with
  | none => .error (.parseUintErr s)
  | some (base, ds) =>
    if ds.length = 0 then .error (.parseUintErr s)
    else
      match parseNatDigits base ds 0 with
      | none => .error (.parseUintErr s)
      | some n => if n < 2 ^ bits then .ok n else .error (.parseUintErr s)

/-- Model of strconv.ParseInt(s, 0, bits): optional sign, then the
unsigned syntax, with the signed `bits`-bit range check. -/
def goParseInt (s : String) (bits : Nat) : Except GoErr Int :=
  let signRest : Bool × List Char :=
    match s.data with
    | '-' :: r => (true, r)
    | '+' :: r => (false, r)
    | r => (false, r)
  match detectBase signRest.2 with
  | none => .error (.parseIntErr s)
  | some (base, ds) =>
    if ds.length = 0 then .error (.parseIntErr s)
    else
      match parseNatDigits base ds 0 with
      | none => .error (.parseIntErr s)
      | some n =>
        let v : Int := if signRest.1 then -(n : Int) else (n : Int)
        if -(2 ^ (bits - 1) : Int) ≤ v ∧ v ≤ (2 ^ (bits - 1) : Int) - 1 then .ok v
        else .error (.parseIntErr s)

/-! ## The type and value universe of the engine. -/

/-- Go types of configuration fields, as the engine's kind switch and
registries distinguish them. `tInt bits` covers the Int / Int8 / Int16 /
Int32 kinds (with their reflect Bits()), `tInt64` the plain int64 kind,
`tDuration` the named type time.Duration (kind int64). `tCustom unm setr`
is a user-defined type of a kind outside the switch (for example a
func-kind named type), optionally implementing encoding.TextUnmarshaler
or the package's Setter interface. Nested configuration groups are not
types here: they appear structurally as `Node.group`. -/
inductive Ty where
  | tString
  | tBool
  | tInt (bits : Nat)
  | tInt64
  | tDuration
  | tUint (bits : Nat)
  | tTime
  | tURL
  | tLocation
  | tSlice (elem : Ty)
  | tMap (key elem : Ty)
  | tCustom (unm setr : Bool)
deriving DecidableEq

theorem ty_sizeOf_pos (t : Ty) : 0 < sizeOf t := by
  cases t <;> simp_arith

/-- Result of an external parsing routine that is not part of this
repository, recorded with the exact arguments the engine handed it. -/
inductive ExtVal where
  | timeParsed (layout : String) (raw : String)
  | urlParsed (raw : String)
  | locationLoaded (raw : String)
  | durationParsed (raw : String)
  | textUnmarshaled (raw : String)
  | setterSet (raw : String)
deriving DecidableEq

/-- Runtime values of configuration fields. `vExt none` is the zero
value of an opaque or custom type (zero time.Time, nil *time.Location,
zero custom value); `vSlice none` / `vMap none` are nil containers,
`some` holds a non-nil container's contents. Map entries keep insertion
order; reflect.SetMapIndex semantics make a later entry for the same
key override an earlier one. -/
inductive Val where
  | vStr (s : String)
  | vBool (b : Bool)
  | vInt (n : Int)
  | vUint (n : Nat)
  | vExt (v : Option ExtVal)
  | vSlice (elems : Option (List Val))
  | vMap (entries : Option (List (Val × Val)))

/-- Model of reflect.Value.IsZero as used by isFieldValueZero. A
successfully produced external value is treated as non-zero. -/
def isZeroVal : Val → Bool
  | .vStr s => s == ""
  | .vBool b => !b
  | .vInt n => n == 0
  | .vUint n => n == 0
  | .vExt o => o.isNone
  | .vSlice o => o.isNone
  | .vMap o => o.isNone

/-! ## The coercion registry and capability checks of parseValue. -/

/-- The default layout time.RFC3339 used when no env-layout tag is
present on a time.Time field. -/
def rfc3339 : String := "2006-01-02T15:04:05Z07:00"

/-- The registered opaque composite parsers (the validStructs map of
the source): time.Time via time.Parse with the layout override or
RFC3339, url.URL via url.Parse, *time.Location via time.LoadLocation.
The external routines are recorded symbolically. -/
def validStructs : Ty → Option (String → Option String → Except GoErr Val)
  | .tTime => some (fun value layout =>
      let l := match layout with
        | some l => l
        | none => rfc3339
      .ok (.vExt (some (.timeParsed l value))))
  | .tURL => some (fun value _ => .ok (.vExt (some (.urlParsed value))))
  | .tLocation => some (fun value _ => .ok (.vExt (some (.locationLoaded value))))
  | _ => none

/-- Does the type (or a pointer to it) implement
encoding.TextUnmarshaler? time.Time does; url.URL and *time.Location do
not. -/
def hasTextUnmarshaler : Ty → Bool
  | .tTime => true
  | .tCustom unm _ => unm
  | _ => false

/-- Does the type (or a pointer to it) implement the package's Setter
interface? -/
def hasSetter : Ty → Bool
  | .tCustom _ setr => setr
  | _ => false

/-- Leaf types whose reflect kind is Struct (the registered struct
composites); *time.Location has kind Ptr. -/
def isStructKind : Ty → Bool
  | .tTime => true
  | .tURL => true
  | _ => false

/-- Element-kind test of the []byte special case in parseSlice. -/
def isUint8Kind : Ty → Bool
  | .tUint 8 => true
  | _ => false

mutual
/-- Model of parseValue: opaque composite registry first, then the
encoding.TextUnmarshaler capability, then the Setter capability, then
the kind switch. The registered struct types never reach the
capability checks or the switch; the switch arms for them are the
unreachable `unsupportedType` default. -/
def parseValue (t : Ty) (value sep : String) (layout : Option String) : Except GoErr Val :=
  match validStructs t with
  | some structParseFn => structParseFn value layout
  | none =>
    if hasTextUnmarshaler t then .ok (.vExt (some (.textUnmarshaled value)))
    else if hasSetter t then .ok (.vExt (some (.setterSet value)))
    else
      match t with
      | .tString => .ok (.vStr value)
      | .tBool =>
        match goParseBool value with
        | .error e => .error e
        | .ok b => .ok (.vBool b)
      | .tInt bits =>
        match goParseInt value bits with
        | .error e => .error e
        | .ok n => .ok (.vInt n)
      | .tInt64 =>
        match goParseInt value 64 with
        | .error e => .error e
        | .ok n => .ok (.vInt n)
      | .tDuration => .ok (.vExt (some (.durationParsed value)))
      | .tUint bits =>
        match goParseUint value bits with
        | .error e => .error e
        | .ok n => .ok (.vUint n)
      | .tSlice elemT => parseSlice (.tSlice elemT) value sep layout
      | .tMap keyT elemT => parseMap (.tMap keyT elemT) value sep layout
      | .tTime => .error .unsupportedType
      | .tURL => .error .unsupportedType
      | .tLocation => .error .unsupportedType
      | .tCustom _ _ => .error .unsupportedType
termination_by (sizeOf t, 2, 0)
decreasing_by
  all_goals simp_wf
  all_goals (apply Prod.Lex.right; apply Prod.Lex.left; omega)

/-- Model of parseSlice: a byte-element slice takes the verbatim bytes
of the string ignoring the separator; otherwise a trim-empty string
gives the empty slice and anything else is split on the separator with
each piece coerced into the element type. -/
def parseSlice (valueType : Ty) (value sep : String) (layout : Option String) : Except GoErr Val :=
  match valueType with
  | .tSlice elemT =>
    if isUint8Kind elemT then .ok (.vSlice (some ((stringBytes value).map Val.vUint)))
    else if (goTrimSpace value).length ≠ 0 then
      match parseValues elemT (goSplit value sep) sep layout with
      | .error e => .error e
      | .ok vs => .ok (.vSlice (some vs))
    else .ok (.vSlice (some []))
  | _ => .error .unsupportedType
termination_by (sizeOf valueType, 1, 0)
decreasing_by
  all_goals simp_wf
  all_goals (apply Prod.Lex.left; omega)

/-- Model of parseMap: a trim-empty string gives the empty map;
otherwise split on the separator into pairs, split each pair at the
first colon only, and coerce key and value; a pair without a colon is
the invalid-map-item error naming the pair. -/
def parseMap (valueType : Ty) (value sep : String) (layout : Option String) : Except GoErr Val :=
  match valueType with
  | .tMap keyT elemT =>
    if (goTrimSpace value).length ≠ 0 then
      match parseMapItems keyT elemT (goSplit value sep) sep layout with
      | .error e => .error e
      | .ok es => .ok (.vMap (some es))
    else .ok (.vMap (some []))
  | _ => .error .unsupportedType
termination_by (sizeOf valueType, 1, 0)
decreasing_by
  all_goals simp_wf
  all_goals (apply Prod.Lex.left; omega)

/-- Elementwise coercion loop of parseSlice. -/
def parseValues (elemT : Ty) (vs : List String) (sep : String) (layout : Option String) :
    Except GoErr (List Val) :=
  match vs with
  | [] => .ok []
  | v :: rest =>
    match parseValue elemT v sep layout with
    | .error e => .error e
    | .ok x =>
      match parseValues elemT rest sep layout with
      | .error e => .error e
      | .ok xs => .ok (x :: xs)
termination_by (sizeOf elemT, 3, vs.length)
decreasing_by
  all_goals simp_wf
  all_goals first
    | (apply Prod.Lex.right; apply Prod.Lex.left; omega)
    | (apply Prod.Lex.right; apply Prod.Lex.right; omega)

/-- Pairwise coercion loop of parseMap. -/
def parseMapItems (keyT elemT : Ty) (pairs : List String) (sep : String) (layout : Option String) :
    Except GoErr (List (Val × Val)) :=
  match pairs with
  | [] => .ok []
  | pair :: rest =>
    match splitN2 pair ":" with
    | [k, v] =>
      match parseValue keyT k sep layout with
      | .error e => .error e
      | .ok kv =>
        match parseValue elemT v sep layout with
        | .error e => .error e
        | .ok vv =>
          match parseMapItems keyT elemT rest sep layout with
          | .error e => .error e
          | .ok es => .ok ((kv, vv) :: es)
    | _ => .error (.invalidMapItem pair)
termination_by (sizeOf keyT + sizeOf elemT, 3, pairs.length)
decreasing_by
  all_goals simp_wf
  all_goals first
    | (apply Prod.Lex.right; apply Prod.Lex.right; omega)
    | (apply Prod.Lex.left
       first
       | omega
       | (have hk := ty_sizeOf_pos keyT
          have hv := ty_sizeOf_pos elemT
          omega))
end

/-! ## Configuration records: struct tags, the record tree, and field
references. -/

/-- The tag lookups readStructMetadata performs on one struct field.
An `Option` distinguishes an absent tag from one present with an empty
string (Tag.Lookup's ok flag); boolean tags record mere presence. -/
structure Tag where
  env : Option String := none
  envLayout : Option String := none
  envDefault : Option String := none
  envSeparator : Option String := none
  envDescription : Option String := none
  envUpd : Bool := false
  envRequired : Bool := false
  envPfx : Option String := none

mutual
/-- A configuration value tree. A `leaf` is a field of one of the
engine's leaf types (the registered struct composites among them); a
`group` is a plain struct the walker recurses into. -/
inductive Node where
  | leaf (t : Ty) (v : Val)
  | group (fields : Fields)

/-- The field list of a struct: each field carries its tag, its Go
field name, whether it is exported (CanInterface / CanSet both hold
exactly for exported fields here), and its value tree. -/
inductive Fields where
  | fnil
  | fcons (tag : Tag) (nm : String) (ex : Bool) (n : Node) (rest : Fields)
end

/-- Field access by declaration index (reflect's Field(idx)). -/
def Fields.get? : Fields → Nat → Option (Tag × String × Bool × Node)
  | .fnil, _ => none
  | .fcons tag nm ex n _, 0 => some (tag, nm, ex, n)
  | .fcons _ _ _ _ rest, i + 1 => rest.get? i

/-- Replace the value tree of the field at an index. -/
def Fields.setNode : Fields → Nat → Node → Fields
  | .fnil, _, _ => .fnil
  | .fcons tag nm ex _ rest, 0, n2 => .fcons tag nm ex n2 rest
  | .fcons tag nm ex n rest, i + 1, n2 => .fcons tag nm ex n (rest.setNode i n2)

mutual
/-- Size of a node, the termination measure of the walker queue. -/
def nodeSize : Node → Nat
  | .leaf _ _ => 1
  | .group fs => 1 + fieldsSize fs

/-- Size of a field list. -/
def fieldsSize : Fields → Nat
  | .fnil => 0
  | .fcons _ _ _ n rest => 1 + nodeSize n + fieldsSize rest
end

/-- The structMeta record of the source. The live reflect.Value is
modelled by the index path of the field in the tree together with its
type; readEnvVars reads and writes the field through the path. -/
structure StructMeta where
  envList : List String
  fieldName : String
  path : List Nat
  ty : Ty
  defValue : Option String
  layout : Option String
  separator : String
  description : String
  updatable : Bool
  required : Bool

/-- Current value of the leaf at a path (the read through the stored
reflect.Value). -/
def getLeafVal : List Nat → Node → Option Val
  | [], .leaf _ v => some v
  | [], .group _ => none
  | _ :: _, .leaf _ _ => none
  | i :: rest, .group fs =>
    match fs.get? i with
    | some f => getLeafVal rest f.2.2.2
    | none => none

/-- Write a value into the leaf at a path (the write through the
stored reflect.Value); anywhere off the tree the tree is unchanged. -/
def setLeafVal : List Nat → Node → Val → Node
  | [], .leaf t _, v => .leaf t v
  | [], .group fs, _ => .group fs
  | i :: rest, .group fs, v =>
    match fs.get? i with
    | some f => .group (fs.setNode i (setLeafVal rest f.2.2.2 v))
    | none => .group fs
  | _ :: _, .leaf t v0, _ => .leaf t v0

/-- The subtree at a path. -/
def nodeAt : List Nat → Node → Option Node
  | [], n => some n
  | i :: rest, .group fs =>
    match fs.get? i with
    | some f => nodeAt rest f.2.2.2
    | none => none
  | _ :: _, .leaf _ _ => none

/-- The tag of the field a non-empty path denotes. -/
def tagAt : List Nat → Node → Option Tag
  | [], _ => none
  | i :: rest, .group fs =>
    match fs.get? i, rest with
    | some f, [] => some f.1
    | some f, _ :: _ => tagAt rest f.2.2.2
    | none, _ => none
  | _ :: _, .leaf _ _ => none

/-- Concatenation of the env-prefix tags of the fields a path walks
through, outermost first: the prefix the walker accumulates for the
descendants of that path. -/
def ancestorPfx : List Nat → Node → String
  | [], _ => ""
  | i :: rest, .group fs =>
    match fs.get? i with
    | some f => f.1.envPfx.getD "" ++ ancestorPfx rest f.2.2.2
    | none => ""
  | _ :: _, .leaf _ _ => ""

/-- The default list and map separator of the engine. -/
def DefaultSeparator : String := ","

/-- The source names a tag declares before prefixing: the env tag
comma-split, empty when the tag is absent or empty. -/
def declaredEnvList (tag : Tag) : List String :=
  match tag.env with
  | some envs => if envs ≠ "" then goSplit envs DefaultSeparator else []
  | none => []

/-! ## Schema discovery: readStructMetadata. -/

/-- The reflect.Kind name printed by the wrong-type schema error. -/
def kindName : Ty → String
  | .tString => "string"
  | .tBool => "bool"
  | .tInt 8 => "int8"
  | .tInt 16 => "int16"
  | .tInt 32 => "int32"
  | .tInt _ => "int"
  | .tInt64 => "int64"
  | .tDuration => "int64"
  | .tUint 8 => "uint8"
  | .tUint 16 => "uint16"
  | .tUint 32 => "uint32"
  | .tUint _ => "uint64"
  | .tTime => "struct"
  | .tURL => "struct"
  | .tLocation => "ptr"
  | .tSlice _ => "slice"
  | .tMap _ _ => "map"
  | .tCustom _ _ => "func"

/-- The structMeta record the walker emits for one qualifying leaf
field (the body of the tag-reading loop of readStructMetadata): env
names comma-split and prefixed when a prefix accumulated, the layout
tag read only on struct-kind fields, the separator defaulted, the
updatable and required flags from tag presence. -/
def mkMeta (tag : Tag) (nm : String) (t : Ty) (pfx : String) (path : List Nat) : StructMeta :=
  { envList :=
      match tag.env with
      | some envs =>
        if envs ≠ "" then
          let l := goSplit envs DefaultSeparator
          if pfx ≠ "" then l.map (fun e => pfx ++ e) else l
        else []
      | none => []
    fieldName := nm
    path := path
    ty := t
    defValue := tag.envDefault
    layout := if isStructKind t then tag.envLayout else none
    separator := tag.envSeparator.getD DefaultSeparator
    description := tag.envDescription.getD ""
    updatable := tag.envUpd
    required := tag.envRequired }

/-- Queue entries of the readStructMetadata loop: the node (pushed as
the address of a struct-kind field), the accumulated prefix, and the
node's path from the root. -/
abbrev QEntry := Node × String × List Nat

/-- The field loop of one queue iteration of readStructMetadata:
returns the metas emitted for this struct and the nested-group entries
appended to the queue, both in field-declaration order. Unexported
fields are skipped (CanInterface for struct-kind fields, CanSet for
the rest); a struct-kind field outside validStructs is pushed with the
accumulated prefix extended by its env-prefix tag and yields no meta. -/
def processFields : Fields → String → List Nat → Nat → (List StructMeta × List QEntry)
  | .fnil, _, _, _ => ([], [])
  | .fcons tag nm ex n fs, pfx, path, idx =>
    let rest := processFields fs pfx path (idx + 1)
    match n with
    | .group gfs =>
      if ex then (rest.1, (Node.group gfs, pfx ++ tag.envPfx.getD "", path ++ [idx]) :: rest.2)
      else rest
    | .leaf t _ =>
      if ex then (mkMeta tag nm t pfx (path ++ [idx]) :: rest.1, rest.2)
      else rest

/-- Total size of the nodes still queued; the termination measure of
the queue loop. -/
def queueSize : List QEntry → Nat
  | [] => 0
  | e :: rest => nodeSize e.1 + queueSize rest

theorem queueSize_append (a b : List QEntry) :
    queueSize (a ++ b) = queueSize a + queueSize b := by
  induction a with
  | nil => simp [queueSize]
  | cons e a ih => simp [queueSize, ih]; omega

theorem processFields_pushed_size : ∀ (fs : Fields) (pfx : String) (path : List Nat) (idx : Nat),
    queueSize (processFields fs pfx path idx).2 ≤ fieldsSize fs
  | .fnil, _, _, _ => by simp [processFields, queueSize, fieldsSize]
  | .fcons tag nm ex n fs, pfx, path, idx => by
    have h := processFields_pushed_size fs pfx path (idx + 1)
    cases n with
    | leaf t v => cases ex <;> simp [processFields, queueSize, fieldsSize] <;> omega
    | group gfs =>
      cases ex <;> simp [processFields, queueSize, fieldsSize, nodeSize] <;> omega

/-- The work-queue loop of readStructMetadata: process entries in
order, rejecting a non-struct node with the wrong-type error, reading
the tags of a struct's fields and appending its nested groups at the
end of the queue. -/
def runQueue (q : List QEntry) : Except GoErr (List StructMeta) :=
  match q with
  | [] => .ok []
  | (n, pfx, path) :: rest =>
    match n with
    | .leaf t _ => .error (.wrongType (kindName t))
    | .group fs =>
      match runQueue (rest ++ (processFields fs pfx path 0).2) with
      | .error e => .error e
      | .ok ms => .ok ((processFields fs pfx path 0).1 ++ ms)
termination_by queueSize q
decreasing_by
  simp_wf
  rw [queueSize_append]
  have h := processFields_pushed_size fs pfx path 0
  simp [queueSize, nodeSize]
  omega

/-- Model of readStructMetadata: seed the queue with the root (the
value behind the configuration pointer, one pointer level unwrapped)
and run the loop. -/
def readStructMetadata (cfgRoot : Node) : Except GoErr (List StructMeta) :=
  runQueue [(cfgRoot, "", [])]

/-! ## The environment store and the population orchestrator. -/

/-- The process environment as a lookup list; os.LookupEnv returns its
first binding of a name. -/
abbrev EnvStore := List (String × String)

/-- Model of os.LookupEnv over the store. -/
def lookupEnv (envS : EnvStore) (name : String) : Option String :=
  match envS with
  | [] => none
  | (k, v) :: rest => if k = name then some v else lookupEnv rest name

/-- The source-name scan of readEnvVars: the first name present in the
environment wins. -/
def lookupFirstEnv (envS : EnvStore) : List String → Option String
  | [] => none
  | e :: rest =>
    match lookupEnv envS e with
    | some v => some v
    | none => lookupFirstEnv envS rest

/-- Outcome of the per-field body of the readEnvVars loop. -/
inductive FieldOutcome where
  | skip
  | fail (e : GoErr)
  | write (v : Val)

/-- The per-field body of the readEnvVars loop: skip non-updatable
fields on an update pass; resolve the raw value by scanning the source
names; fail with the require error when nothing resolved, the field is
required and its current value is zero; otherwise fall back to the
default when the current value is zero; coerce whatever raw value is
available, wrapping a coercion failure with the field name and the
first declared source name (empty when none are declared). The walker
only emits valid leaf paths, so the path-miss branch is unreachable. -/
def resolveField (envS : EnvStore) (cfg : Node) (update : Bool) (meta : StructMeta) :
    FieldOutcome :=
  if update = true ∧ meta.updatable = false then .skip
  else
    match getLeafVal meta.path cfg with
    | none => .skip
    | some cur =>
      let rawValue := lookupFirstEnv envS meta.envList
      if rawValue = none ∧ meta.required = true ∧ isZeroVal cur = true then
        .fail (.requireErr meta.fieldName)
      else
        let rawValue2 := if rawValue = none ∧ isZeroVal cur = true then meta.defValue else rawValue
        match rawValue2 with
        | none => .skip
        | some raw =>
          match parseValue meta.ty raw meta.separator meta.layout with
          | .error e => .fail (.parsingErr meta.fieldName (meta.envList.headD "") e)
          | .ok v => .write v

/-- The field loop of readEnvVars, threading the configuration tree as
state: each written field updates the tree the later fields see. -/
def processMetas (envS : EnvStore) (update : Bool) : List StructMeta → Node → Except GoErr Node
  | [], cfg => .ok cfg
  | meta :: rest, cfg =>
    match resolveField envS cfg update meta with
    | .skip => processMetas envS update rest cfg
    | .fail e => .error e
    | .write v => processMetas envS update rest (setLeafVal meta.path cfg v)

/-- Model of readEnvVars: walk the structure, then resolve and coerce
each field in walk order. The Updater hook concerns user callback code
absent from the modelled configuration universe. -/
def readEnvVars (envS : EnvStore) (cfg : Node) (update : Bool) : Except GoErr Node :=
  match readStructMetadata cfg with
  | .error e => .error e
  | .ok metas => processMetas envS update metas cfg

/-- ReadEnv reads environment variables into the structure. -/
def ReadEnv (envS : EnvStore) (cfg : Node) : Except GoErr Node :=
  readEnvVars envS cfg false

/-- UpdateEnv rereads (updates) environment variables in the
structure, restricted to updatable fields. -/
def UpdateEnv (envS : EnvStore) (cfg : Node) : Except GoErr Node :=
  readEnvVars envS cfg true

/-! ## Walker lemmas: what the queue loop emits and pushes. -/

theorem processFields_meta_mem : ∀ (fs : Fields) (pfx : String) (path : List Nat) (idx : Nat)
    (m : StructMeta), m ∈ (processFields fs pfx path idx).1 →
    ∃ j tag nm t v, fs.get? j = some (tag, nm, true, .leaf t v) ∧
      m = mkMeta tag nm t pfx (path ++ [idx + j])
  | .fnil, _, _, _, m => by simp [processFields]
  | .fcons tag nm ex n fs, pfx, path, idx, m => by
    intro hm
    have ih := processFields_meta_mem fs pfx path (idx + 1) m
    have step : m ∈ (processFields fs pfx path (idx + 1)).1 →
        ∃ j tag2 nm2 t v, (Fields.fcons tag nm ex n fs).get? j = some (tag2, nm2, true, .leaf t v) ∧
          m = mkMeta tag2 nm2 t pfx (path ++ [idx + j]) := by
      intro hrest
      obtain ⟨j, tag2, nm2, t, v, hget, heq⟩ := ih hrest
      refine ⟨j + 1, tag2, nm2, t, v, by simpa [Fields.get?] using hget, ?_⟩
      rw [show idx + (j + 1) = idx + 1 + j by omega]
      exact heq
    cases n with
    | group gfs =>
      cases ex <;> simp only [processFields] at hm <;> exact step hm
    | leaf t v =>
      cases ex with
      | false => simp only [processFields] at hm; exact step hm
      | true =>
        simp only [processFields] at hm
        rcases List.mem_cons.mp hm with heq | hrest
        · exact ⟨0, tag, nm, t, v, by simp [Fields.get?], by simpa using heq⟩
        · exact step hrest

theorem processFields_pushed_mem : ∀ (fs : Fields) (pfx : String) (path : List Nat) (idx : Nat)
    (e : QEntry), e ∈ (processFields fs pfx path idx).2 →
    ∃ j tag nm gfs, fs.get? j = some (tag, nm, true, .group gfs) ∧
      e = (Node.group gfs, pfx ++ tag.envPfx.getD "", path ++ [idx + j])
  | .fnil, _, _, _, e => by simp [processFields]
  | .fcons tag nm ex n fs, pfx, path, idx, e => by
    intro he
    have ih := processFields_pushed_mem fs pfx path (idx + 1) e
    have step : e ∈ (processFields fs pfx path (idx + 1)).2 →
        ∃ j tag2 nm2 gfs, (Fields.fcons tag nm ex n fs).get? j = some (tag2, nm2, true, .group gfs) ∧
          e = (Node.group gfs, pfx ++ tag2.envPfx.getD "", path ++ [idx + j]) := by
      intro hrest
      obtain ⟨j, tag2, nm2, gfs, hget, heq⟩ := ih hrest
      refine ⟨j + 1, tag2, nm2, gfs, by simpa [Fields.get?] using hget, ?_⟩
      rw [show idx + (j + 1) = idx + 1 + j by omega]
      exact heq
    cases n with
    | leaf t v =>
      cases ex <;> simp only [processFields] at he <;> exact step he
    | group gfs =>
      cases ex with
      | false => simp only [processFields] at he; exact step he
      | true =>
        simp only [processFields] at he
        rcases List.mem_cons.mp he with heq | hrest
        · exact ⟨0, tag, nm, gfs, by simp [Fields.get?], by simpa using heq⟩
        · exact step hrest

theorem nodeAt_append (p : List Nat) (root : Node) (fs : Fields) (j : Nat)
    (f : Tag × String × Bool × Node)
    (hroot : nodeAt p root = some (.group fs)) (hget : fs.get? j = some f) :
    nodeAt (p ++ [j]) root = some f.2.2.2 := by
  induction p generalizing root with
  | nil =>
    simp only [nodeAt, Option.some.injEq] at hroot
    subst hroot
    simp [nodeAt, hget]
  | cons i rest ih =>
    cases root with
    | leaf t v => simp [nodeAt] at hroot
    | group fs0 =>
      cases hf0 : fs0.get? i with
      | none => simp [nodeAt, hf0] at hroot
      | some f0 =>
        simp only [nodeAt, hf0] at hroot
        simpa [nodeAt, hf0] using ih f0.2.2.2 hroot

theorem tagAt_append (p : List Nat) (root : Node) (fs : Fields) (j : Nat)
    (f : Tag × String × Bool × Node)
    (hroot : nodeAt p root = some (.group fs)) (hget : fs.get? j = some f) :
    tagAt (p ++ [j]) root = some f.1 := by
  induction p generalizing root with
  | nil =>
    simp only [nodeAt, Option.some.injEq] at hroot
    subst hroot
    simp [tagAt, hget]
  | cons i rest ih =>
    cases root with
    | leaf t v => simp [nodeAt] at hroot
    | group fs0 =>
      cases hf0 : fs0.get? i with
      | none => simp [nodeAt, hf0] at hroot
      | some f0 =>
        simp only [nodeAt, hf0] at hroot
        have htail := ih f0.2.2.2 hroot
        cases hT : rest ++ [j] with
        | nil => exact absurd hT (by simp)
        | cons y ys =>
          rw [hT] at htail
          simpa [tagAt, hf0, hT] using htail

theorem ancestorPfx_append (p : List Nat) (root : Node) (fs : Fields) (j : Nat)
    (f : Tag × String × Bool × Node)
    (hroot : nodeAt p root = some (.group fs)) (hget : fs.get? j = some f) :
    ancestorPfx (p ++ [j]) root = ancestorPfx p root ++ f.1.envPfx.getD "" := by
  induction p generalizing root with
  | nil =>
    simp only [nodeAt, Option.some.injEq] at hroot
    subst hroot
    simp [ancestorPfx, hget]
  | cons i rest ih =>
    cases root with
    | leaf t v => simp [nodeAt] at hroot
    | group fs0 =>
      cases hf0 : fs0.get? i with
      | none => simp [nodeAt, hf0] at hroot
      | some f0 =>
        simp only [nodeAt, hf0] at hroot
        simp [ancestorPfx, hf0, ih f0.2.2.2 hroot, String.append_assoc]

theorem mkMeta_envList (tag : Tag) (nm : String) (t : Ty) (pfx : String) (path : List Nat) :
    (mkMeta tag nm t pfx path).envList = (declaredEnvList tag).map (fun e => pfx ++ e) := by
  simp only [mkMeta, declaredEnvList]
  cases htag : tag.env with
  | none => simp
  | some envs =>
    by_cases he : envs = ""
    · simp [he]
    · by_cases hp : pfx = ""
      · simp [he, hp]
      · simp [he, hp]

/-- Invariant run of the queue loop: when every queued entry really is
the subtree at its recorded path with the prefix accumulated along
that path, every emitted meta is the mkMeta of its field's tag, with
the prefix accumulated along its ancestors. -/
theorem runQueue_metas_spec (root : Node) :
    ∀ q : List QEntry,
      (∀ e ∈ q, nodeAt e.2.2 root = some e.1 ∧ ancestorPfx e.2.2 root = e.2.1) →
      ∀ metas : List StructMeta, runQueue q = .ok metas →
      ∀ m ∈ metas, ∃ tag nm t v,
        nodeAt m.path root = some (.leaf t v) ∧ tagAt m.path root = some tag ∧
        m = mkMeta tag nm t (ancestorPfx m.path.dropLast root) m.path := by
  intro q
  induction q using runQueue.induct with
  | case1 =>
    intro _ metas hok
    simp [runQueue] at hok
    subst hok
    simp
  | case2 pfx path rest t v =>
    intro _ metas hok
    simp [runQueue] at hok
  | case3 pfx path rest fs e herr ih =>
    intro _ metas hok
    simp [runQueue, herr] at hok
  | case4 pfx path rest fs ms hms ih =>
    intro hq metas hok
    simp only [runQueue, hms, Except.ok.injEq] at hok
    subst hok
    have hhead := hq (Node.group fs, pfx, path) (by simp)
    have hq2 : ∀ e ∈ rest ++ (processFields fs pfx path 0).2,
        nodeAt e.2.2 root = some e.1 ∧ ancestorPfx e.2.2 root = e.2.1 := by
      intro e he
      rcases List.mem_append.mp he with hrest | hpush
      · exact hq e (List.mem_cons_of_mem _ hrest)
      · obtain ⟨j, tag, nm, gfs, hget, heq⟩ := processFields_pushed_mem fs pfx path 0 e hpush
        subst heq
        have h1 := nodeAt_append path root fs j (tag, nm, true, .group gfs) hhead.1 hget
        have h2 := ancestorPfx_append path root fs j (tag, nm, true, .group gfs) hhead.1 hget
        simp only [Nat.zero_add]
        exact ⟨h1, by rw [h2, hhead.2]⟩
    intro m hm
    rcases List.mem_append.mp hm with hemit | hms2
    · obtain ⟨j, tag, nm, t, v, hget, heq⟩ := processFields_meta_mem fs pfx path 0 m hemit
      simp only [Nat.zero_add] at heq
      have h1 := nodeAt_append path root fs j (tag, nm, true, .leaf t v) hhead.1 hget
      have h2 := tagAt_append path root fs j (tag, nm, true, .leaf t v) hhead.1 hget
      refine ⟨tag, nm, t, v, ?_, ?_, ?_⟩
      · rw [heq]; exact h1
      · rw [heq]; exact h2
      · rw [heq]
        have hp : (mkMeta tag nm t pfx (path ++ [j])).path = path ++ [j] := rfl
        rw [hp, List.dropLast_concat, hhead.2]
    · exact ih hq2 ms hms m hms2

/-- A queue holding only struct nodes runs to completion: the pushed
entries are always struct nodes, so the wrong-type rejection never
fires past the root. -/
theorem runQueue_ok_of_groups :
    ∀ q : List QEntry, (∀ e ∈ q, ∃ gfs, e.1 = Node.group gfs) →
      ∃ ms, runQueue q = .ok ms := by
  intro q
  induction q using runQueue.induct with
  | case1 => intro _; exact ⟨[], by simp [runQueue]⟩
  | case2 pfx path rest t v =>
    intro hq
    obtain ⟨gfs, hgfs⟩ := hq (Node.leaf t v, pfx, path) (by simp)
    simp at hgfs
  | case3 pfx path rest fs e herr ih =>
    intro hq
    have hq2 : ∀ e2 ∈ rest ++ (processFields fs pfx path 0).2, ∃ gfs, e2.1 = Node.group gfs := by
      intro e2 he2
      rcases List.mem_append.mp he2 with hrest | hpush
      · exact hq e2 (List.mem_cons_of_mem _ hrest)
      · obtain ⟨j, tag, nm, gfs, hget, heq⟩ := processFields_pushed_mem fs pfx path 0 e2 hpush
        exact ⟨gfs, by rw [heq]⟩
    obtain ⟨ms, hms⟩ := ih hq2
    rw [herr] at hms
    simp at hms
  | case4 pfx path rest fs ms hms ih =>
    intro _
    exact ⟨(processFields fs pfx path 0).1 ++ ms, by simp [runQueue, hms]⟩

/-! ## Concrete configurations used by counterexamples and witnesses. -/

def tagC1 : Tag := { env := some "PORT", envDefault := some "8080", envRequired := true }

def cfgC1 : Node := .group (.fcons tagC1 "Port" true (.leaf (.tInt 64) (.vInt 0)) .fnil)

def tagC2 : Tag := { env := some "SRV_PORT,PORT", envDefault := some "8080" }

def cfgC2 : Node := .group (.fcons tagC2 "Port" true (.leaf .tString (.vStr "")) .fnil)

def tagC2r : Tag := { env := some "SRV_HOST,HOST", envDefault := some "localhost", envRequired := true }

def cfgC2r : Node := .group (.fcons tagC2r "Host" true (.leaf .tString (.vStr "")) .fnil)

def tagC3 : Tag := { env := some "PORT_A,PORT_B" }

def cfgC3 : Node := .group (.fcons tagC3 "Port" true (.leaf (.tInt 64) (.vInt 0)) .fnil)

def tagDB : Tag := { envPfx := some "DB_" }

def tagHost : Tag := { env := some "HOST" }

def cfgC5 : Node :=
  .group (.fcons tagDB "Database" true
    (.group (.fcons tagHost "Host" true (.leaf .tString (.vStr "")) .fnil)) .fnil)

def tagX : Tag := { env := some "X", envUpd := true }

def tagY : Tag := { env := some "Y" }

def cfgXY : Node :=
  .group (.fcons tagX "X" true (.leaf (.tInt 64) (.vInt 0))
    (.fcons tagY "Y" true (.leaf (.tInt 64) (.vInt 0)) .fnil))

def envXY1 : EnvStore := [("X", "1"), ("Y", "2")]

def envXY2 : EnvStore := [("X", "10"), ("Y", "20")]

def cfgXY1 : Node :=
  .group (.fcons tagX "X" true (.leaf (.tInt 64) (.vInt 1))
    (.fcons tagY "Y" true (.leaf (.tInt 64) (.vInt 2)) .fnil))

def cfgXY2 : Node :=
  .group (.fcons tagX "X" true (.leaf (.tInt 64) (.vInt 10))
    (.fcons tagY "Y" true (.leaf (.tInt 64) (.vInt 2)) .fnil))

def tagC9 : Tag := { envDefault := some "localhost" }

def cfgC9 : Node := .group (.fcons tagC9 "Host" true (.leaf .tString (.vStr "")) .fnil)

def tagC9r : Tag := { envDefault := some "8080", envRequired := true }

def cfgC9r : Node := .group (.fcons tagC9r "Timeout" true (.leaf (.tInt 64) (.vInt 0)) .fnil)

/-! ## Map-coercion lemma: the first pair whose colon split is not a
key-value pair aborts a string-to-string map coercion, named in the
error. -/

theorem parseMapItems_first_malformed (sep : String) (layout : Option String) :
    ∀ (pairs : List String) (q : String),
      pairs.find? (fun p => (splitN2 p ":").length != 2) = some q →
      parseMapItems .tString .tString pairs sep layout = .error (.invalidMapItem q) := by
  intro pairs
  induction pairs with
  | nil => intro q h; simp at h
  | cons p rest ih =>
    intro q h
    by_cases hp : ((splitN2 p ":").length != 2) = true
    · simp only [List.find?, hp] at h
      obtain rfl : p = q := by simpa using h
      cases hsp : splitN2 p ":" with
      | nil => simp [parseMapItems, hsp]
      | cons k ktail =>
        cases ktail with
        | nil => simp [parseMapItems, hsp]
        | cons v vtail =>
          cases vtail with
          | nil => rw [hsp] at hp; simp at hp
          | cons w wtail => simp [parseMapItems, hsp]
    · have hpf : ((splitN2 p ":").length != 2) = false := by
        simpa using hp
      simp only [List.find?, hpf] at h
      have hlen : (splitN2 p ":").length = 2 := by simpa using hp
      cases hsp : splitN2 p ":" with
      | nil => rw [hsp] at hlen; simp at hlen
      | cons k ktail =>
        cases ktail with
        | nil => rw [hsp] at hlen; simp at hlen
        | cons v vtail =>
          cases vtail with
          | cons w wtail => rw [hsp] at hlen; simp at hlen
          | nil =>
            simp [parseMapItems, hsp, parseValue, validStructs, hasTextUnmarshaler,
              hasSetter, ih q h]

/-! ## The claims. -/

/-- C4: for every target type with a registered opaque composite parser
(time.Time, url.URL, *time.Location), coercion invokes that parser on
the whole raw string, taking precedence over the generic text-unmarshal
capability and the Setter capability: a time.Time field is handed to
time.Parse with its layout override (RFC3339 when absent), never to its
own UnmarshalText, although time.Time implements that capability. -/
theorem c4_opaque_composite_precedence :
    (∀ (value sep : String) (layout : Option String),
      parseValue .tTime value sep layout =
        .ok (.vExt (some (.timeParsed (layout.getD rfc3339) value))) ∧
      parseValue .tURL value sep layout = .ok (.vExt (some (.urlParsed value))) ∧
      parseValue .tLocation value sep layout = .ok (.vExt (some (.locationLoaded value)))) ∧
    hasTextUnmarshaler .tTime = true := by
  refine ⟨fun value sep layout => ⟨?_, ?_, ?_⟩, rfl⟩
  · cases layout <;> simp [parseValue, validStructs, Option.getD]
  · simp [parseValue, validStructs]
  · simp [parseValue, validStructs]

/-- C7: coercing any raw string into a byte-slice target succeeds with
exactly the verbatim bytes of the string, for every separator, with no
splitting and no trimming. -/
theorem c7_byte_slice_verbatim (value sep : String) (layout : Option String) :
    parseValue (.tSlice (.tUint 8)) value sep layout =
      .ok (.vSlice (some ((stringBytes value).map Val.vUint))) := by
  simp [parseValue, parseSlice, validStructs, hasTextUnmarshaler, hasSetter, isUint8Kind]

/-- C10: schema discovery fails exactly when the root (after the one
pointer dereference the model builds in) is not a struct: the walk of
any struct root, of any nesting depth and field content, returns a
descriptor list without error, because every queued node is a
struct-kind field's address; a non-struct root is the wrong-type
error. -/
theorem c10_walk_error_only_at_root :
    (∀ fs : Fields, ∃ metas, readStructMetadata (.group fs) = .ok metas) ∧
    (∀ (t : Ty) (v : Val), isStructKind t = false →
      readStructMetadata (.leaf t v) = .error (.wrongType (kindName t))) := by
  constructor
  · intro fs
    apply runQueue_ok_of_groups
    intro e he
    simp only [List.mem_singleton] at he
    exact ⟨fs, by rw [he]⟩
  · intro t v _
    simp [readStructMetadata, runQueue]

theorem c10_witness :
    (∃ metas, readStructMetadata (Node.group .fnil) = .ok metas) ∧
    readStructMetadata (Node.leaf .tString (.vStr "")) =
      .error (.wrongType (kindName .tString)) :=
  ⟨c10_walk_error_only_at_root.1 .fnil,
   c10_walk_error_only_at_root.2 .tString (.vStr "") rfl⟩

/-- C5: every source name of a leaf field inside nested groups is the
concatenation of all ancestor prefixes (outermost first) with the
declared name, fixed at discovery time: each emitted meta's envList is
the declared comma-split name list of its field's tag, each entry
prefixed with the prefixes accumulated along the field's ancestor
path. -/
theorem c5_prefix_accumulation (fs : Fields) (metas : List StructMeta) (m : StructMeta)
    (hok : readStructMetadata (.group fs) = .ok metas) (hm : m ∈ metas) :
    ∃ tag, tagAt m.path (.group fs) = some tag ∧
      m.envList = (declaredEnvList tag).map
        (fun e => ancestorPfx m.path.dropLast (.group fs) ++ e) := by
  have h := runQueue_metas_spec (.group fs) [(.group fs, "", [])]
    (by intro e he; simp only [List.mem_singleton] at he; subst he; exact ⟨rfl, rfl⟩)
    metas hok m hm
  obtain ⟨tag, nm, t, v, _, h2, h3⟩ := h
  refine ⟨tag, h2, ?_⟩
  have h4 := mkMeta_envList tag nm t (ancestorPfx m.path.dropLast (.group fs)) m.path
  calc m.envList
      = (mkMeta tag nm t (ancestorPfx m.path.dropLast (.group fs)) m.path).envList := by
        conv_lhs => rw [h3]
    _ = (declaredEnvList tag).map
        (fun e => ancestorPfx m.path.dropLast (.group fs) ++ e) := h4

theorem c5_witness :
    (∃ tag, tagAt [0, 0] cfgC5 = some tag ∧
      (mkMeta tagHost "Host" .tString "DB_" [0, 0]).envList =
        (declaredEnvList tag).map (fun e => ancestorPfx [0] cfgC5 ++ e)) ∧
    (mkMeta tagHost "Host" .tString "DB_" [0, 0]).envList = ["DB_HOST"] ∧
    readEnvVars [("HOST", "x"), ("DB_HOST", "y")] cfgC5 false =
      .ok (setLeafVal [0, 0] cfgC5 (.vStr "y")) := by
  refine ⟨?_, rfl, ?_⟩
  case refine_2 =>
    simp [readEnvVars, readStructMetadata, runQueue, processFields, mkMeta, cfgC5, tagDB,
      tagHost, processMetas, resolveField, getLeafVal, lookupFirstEnv, lookupEnv, isZeroVal,
      Fields.get?, parseValue, validStructs, hasTextUnmarshaler, hasSetter, setLeafVal,
      Fields.setNode]
  have hok : readStructMetadata cfgC5 = .ok [mkMeta tagHost "Host" .tString "DB_" [0, 0]] := by
    simp [readStructMetadata, runQueue, processFields, cfgC5, tagDB, tagHost]
  have h := c5_prefix_accumulation
    (.fcons tagDB "Database" true
      (.group (.fcons tagHost "Host" true (.leaf .tString (.vStr "")) .fnil)) .fnil)
    [mkMeta tagHost "Host" .tString "DB_" [0, 0]]
    (mkMeta tagHost "Host" .tString "DB_" [0, 0]) hok (List.mem_singleton.mpr rfl)
  exact h

/-- C6: mapping coercion splits the raw string on the separator into
pairs and splits each pair at the first colon only, so values may
contain further colons; a pair whose colon split is not a key-value
pair fails the coercion with the invalid-map-item error naming that
pair (the first such pair for a string-to-string map, whose element
coercions cannot fail), and the raw value "a:1,bad" coerced into a
string-to-int map fails naming "bad". -/
theorem c6_map_pair_splitting :
    (∀ (keyT elemT : Ty) (value sep : String) (layout : Option String),
      (goTrimSpace value).length ≠ 0 →
      parseValue (.tMap keyT elemT) value sep layout =
        (match parseMapItems keyT elemT (goSplit value sep) sep layout with
         | .error e => .error e
         | .ok es => .ok (.vMap (some es)))) ∧
    (∀ (keyT elemT : Ty) (pair : String) (rest : List String) (sep : String)
        (layout : Option String) (k v : String),
      splitN2 pair ":" = [k, v] →
      parseMapItems keyT elemT (pair :: rest) sep layout =
        (match parseValue keyT k sep layout with
         | .error e => .error e
         | .ok kv =>
           match parseValue elemT v sep layout with
           | .error e => .error e
           | .ok vv =>
             match parseMapItems keyT elemT rest sep layout with
             | .error e => .error e
             | .ok es => .ok ((kv, vv) :: es))) ∧
    (∀ (keyT elemT : Ty) (pair : String) (rest : List String) (sep : String)
        (layout : Option String),
      splitN2 pair ":" = [pair] →
      parseMapItems keyT elemT (pair :: rest) sep layout = .error (.invalidMapItem pair)) ∧
    (∀ (pairs : List String) (sep : String) (layout : Option String) (q : String),
      pairs.find? (fun p => (splitN2 p ":").length != 2) = some q →
      parseMapItems .tString .tString pairs sep layout = .error (.invalidMapItem q)) ∧
    parseValue (.tMap .tString .tString) "k:v1:v2" "," none =
      .ok (.vMap (some [(.vStr "k", .vStr "v1:v2")])) ∧
    parseValue (.tMap .tString (.tInt 64)) "a:1,bad" "," none =
      .error (.invalidMapItem "bad") := by
  refine ⟨?_, ?_, ?_, ?_, ?_, ?_⟩
  · intro keyT elemT value sep layout htrim
    simp [parseValue, parseMap, validStructs, hasTextUnmarshaler, hasSetter, htrim]
  · intro keyT elemT pair rest sep layout k v hsp
    simp [parseMapItems, hsp]
  · intro keyT elemT pair rest sep layout hsp
    simp [parseMapItems, hsp]
  · intro pairs sep layout q h
    exact parseMapItems_first_malformed sep layout pairs q h
  · have e1 : goSplit "k:v1:v2" "," = ["k:v1:v2"] := rfl
    have e2 : splitN2 "k:v1:v2" ":" = ["k", "v1:v2"] := rfl
    have e3 : (goTrimSpace "k:v1:v2").length = 7 := rfl
    simp [parseValue, parseMap, parseMapItems, validStructs, hasTextUnmarshaler, hasSetter,
      e1, e2, e3]
  · have e1 : goSplit "a:1,bad" "," = ["a:1", "bad"] := rfl
    have e2 : splitN2 "a:1" ":" = ["a", "1"] := rfl
    have e3 : splitN2 "bad" ":" = ["bad"] := rfl
    have e4 : (goTrimSpace "a:1,bad").length = 7 := rfl
    have e5 : goParseInt "1" 64 = .ok 1 := rfl
    simp [parseValue, parseMap, parseMapItems, validStructs, hasTextUnmarshaler, hasSetter,
      e1, e2, e3, e4, e5]

theorem c6_witness :
    parseMapItems .tString .tString ["a:b"] "," none = .ok [(.vStr "a", .vStr "b")] ∧
    parseMapItems .tString (.tInt 64) ["bad"] "," none = .error (.invalidMapItem "bad") := by
  constructor
  · have h1 := c6_map_pair_splitting.2.1 .tString .tString "a:b" [] "," none "a" "b" (by decide)
    rw [h1]
    simp [parseValue, parseMapItems, validStructs, hasTextUnmarshaler, hasSetter]
  · exact c6_map_pair_splitting.2.2.1 .tString (.tInt 64) "bad" [] "," none (by decide)

/-- C1 counterexample: a required int field declaring default "8080",
with no source variable in the environment and a zero current value,
makes the population pass fail with the require error — the claim says
such a field receives the coerced default and does not hard-fail. -/
theorem c1_counterexample :
    readEnvVars [] cfgC1 false = .error (.requireErr "Port") ∧
    tagC1.envDefault = some "8080" ∧ tagC1.envRequired = true := by
  refine ⟨?_, rfl, rfl⟩
  simp [readEnvVars, readStructMetadata, runQueue, processFields, mkMeta, cfgC1, tagC1,
    processMetas, resolveField, getLeafVal, lookupFirstEnv, lookupEnv, isZeroVal, Fields.get?]

/-- C1 amended: the required check of readEnvVars runs before the
default fallback and does not consult the default, so a required field
with no source variable present and a zero current value always fails
with the require error, whatever default it declares; the coerced
default is never applied to it in this situation. -/
theorem c1_amended_required_ignores_default (envS : EnvStore) (update : Bool)
    (meta : StructMeta) (rest : List StructMeta) (cfg : Node) (cur : Val)
    (hupd : update = false ∨ meta.updatable = true)
    (hreq : meta.required = true)
    (henv : lookupFirstEnv envS meta.envList = none)
    (hcur : getLeafVal meta.path cfg = some cur)
    (hzero : isZeroVal cur = true) :
    processMetas envS update (meta :: rest) cfg = .error (.requireErr meta.fieldName) := by
  have hskip : ¬(update = true ∧ meta.updatable = false) := by
    rcases hupd with h | h <;> simp [h]
  simp [processMetas, resolveField, hskip, hcur, henv, hreq, hzero]

theorem c1_amended_witness :
    processMetas [] false [mkMeta tagC1 "Port" (.tInt 64) "" [0]] cfgC1 =
      .error (.requireErr "Port") := by
  have h := c1_amended_required_ignores_default [] false
    (mkMeta tagC1 "Port" (.tInt 64) "" [0]) [] cfgC1 (.vInt 0)
    (Or.inl rfl) rfl rfl rfl rfl
  exact h

/-- C2 counterexample: a required field with default "localhost" and
source names SRV_HOST and HOST, neither set, current value zero: the
pass fails with the require error instead of receiving the coerced
default as the claim states. -/
theorem c2_counterexample :
    readEnvVars [] cfgC2r false = .error (.requireErr "Host") ∧
    tagC2r.env = some "SRV_HOST,HOST" ∧ tagC2r.envDefault = some "localhost" := by
  refine ⟨?_, rfl, rfl⟩
  simp [readEnvVars, readStructMetadata, runQueue, processFields, mkMeta, cfgC2r, tagC2r,
    processMetas, resolveField, getLeafVal, lookupFirstEnv, lookupEnv, isZeroVal, Fields.get?]

/-- C2 amended: for a field with default D and source names [A, B],
the pass coerces the value of A when A is set (whether or not B is),
the value of B when only B is set, and — provided the field is not
marked required — the default D when neither is set and the current
value is zero; when neither is set and the current value is non-zero
the field is left completely untouched. (A required field with neither
name set and a zero current value fails with the require error before
the default is consulted.) -/
theorem c2_amended_precedence (envS : EnvStore) (meta : StructMeta) (rest : List StructMeta)
    (cfg : Node) (cur : Val) (a b d : String)
    (hlist : meta.envList = [a, b])
    (hdef : meta.defValue = some d)
    (hcur : getLeafVal meta.path cfg = some cur) :
    (∀ x, lookupEnv envS a = some x →
      processMetas envS false (meta :: rest) cfg =
        (match parseValue meta.ty x meta.separator meta.layout with
         | .error e => .error (.parsingErr meta.fieldName a e)
         | .ok v => processMetas envS false rest (setLeafVal meta.path cfg v))) ∧
    (∀ y, lookupEnv envS a = none → lookupEnv envS b = some y →
      processMetas envS false (meta :: rest) cfg =
        (match parseValue meta.ty y meta.separator meta.layout with
         | .error e => .error (.parsingErr meta.fieldName a e)
         | .ok v => processMetas envS false rest (setLeafVal meta.path cfg v))) ∧
    (lookupEnv envS a = none → lookupEnv envS b = none → meta.required = false →
      isZeroVal cur = true →
      processMetas envS false (meta :: rest) cfg =
        (match parseValue meta.ty d meta.separator meta.layout with
         | .error e => .error (.parsingErr meta.fieldName a e)
         | .ok v => processMetas envS false rest (setLeafVal meta.path cfg v))) ∧
    (lookupEnv envS a = none → lookupEnv envS b = none → isZeroVal cur = false →
      processMetas envS false (meta :: rest) cfg = processMetas envS false rest cfg) := by
  refine ⟨?_, ?_, ?_, ?_⟩
  · intro x hx
    cases hpv : parseValue meta.ty x meta.separator meta.layout <;>
      simp [processMetas, resolveField, hcur, hlist, hdef, lookupFirstEnv, hx, hpv]
  · intro y ha hb
    cases hpv : parseValue meta.ty y meta.separator meta.layout <;>
      simp [processMetas, resolveField, hcur, hlist, hdef, lookupFirstEnv, ha, hb, hpv]
  · intro ha hb hreq hzero
    cases hpv : parseValue meta.ty d meta.separator meta.layout <;>
      simp [processMetas, resolveField, hcur, hlist, hdef, lookupFirstEnv, ha, hb, hreq,
        hzero, hpv]
  · intro ha hb hzero
    simp [processMetas, resolveField, hcur, hlist, hdef, lookupFirstEnv, ha, hb, hzero]

theorem c2_amended_witness :
    processMetas [("SRV_PORT", "1"), ("PORT", "2")] false
      [mkMeta tagC2 "Port" .tString "" [0]] cfgC2 =
      .ok (setLeafVal [0] cfgC2 (.vStr "1")) ∧
    processMetas [("PORT", "2")] false [mkMeta tagC2 "Port" .tString "" [0]] cfgC2 =
      .ok (setLeafVal [0] cfgC2 (.vStr "2")) ∧
    processMetas [] false [mkMeta tagC2 "Port" .tString "" [0]] cfgC2 =
      .ok (setLeafVal [0] cfgC2 (.vStr "8080")) := by
  have h := c2_amended_precedence [("SRV_PORT", "1"), ("PORT", "2")]
    (mkMeta tagC2 "Port" .tString "" [0]) [] cfgC2 (.vStr "") "SRV_PORT" "PORT" "8080"
    rfl rfl rfl
  have h2 := c2_amended_precedence [("PORT", "2")]
    (mkMeta tagC2 "Port" .tString "" [0]) [] cfgC2 (.vStr "") "SRV_PORT" "PORT" "8080"
    rfl rfl rfl
  have h3 := c2_amended_precedence []
    (mkMeta tagC2 "Port" .tString "" [0]) [] cfgC2 (.vStr "") "SRV_PORT" "PORT" "8080"
    rfl rfl rfl
  refine ⟨?_, ?_, ?_⟩
  · have := h.1 "1" rfl
    rw [this]
    simp [parseValue, validStructs, hasTextUnmarshaler, hasSetter, processMetas, mkMeta, tagC2]
  · have := h2.2.1 "2" rfl rfl
    rw [this]
    simp [parseValue, validStructs, hasTextUnmarshaler, hasSetter, processMetas, mkMeta, tagC2]
  · have := h3.2.2.1 rfl rfl rfl rfl
    rw [this]
    simp [parseValue, validStructs, hasTextUnmarshaler, hasSetter, processMetas, mkMeta, tagC2]

/-- C3 counterexample: the field declares sources PORT_A and PORT_B,
the unparseable value comes from PORT_B (PORT_A is unset), yet the
wrapping error names PORT_A — the claim says the error names the
specific source variable that produced the value. -/
theorem c3_counterexample :
    readEnvVars [("PORT_B", "abc")] cfgC3 false =
      .error (.parsingErr "Port" "PORT_A" (.parseIntErr "abc")) ∧
    lookupEnv [("PORT_B", "abc")] "PORT_A" = none ∧
    lookupEnv [("PORT_B", "abc")] "PORT_B" = some "abc" := by
  refine ⟨?_, rfl, rfl⟩
  simp [readEnvVars, readStructMetadata, runQueue, processFields, mkMeta, cfgC3, tagC3,
    processMetas, resolveField, getLeafVal, lookupFirstEnv, lookupEnv, isZeroVal, Fields.get?,
    parseValue, validStructs, hasTextUnmarshaler, hasSetter, goParseInt, detectBase,
    parseNatDigits, hexDigitVal]
  rfl

/-- C3 amended: a coercion failure is wrapped with the field's name
and the field's first declared (prefixed) source name, whichever
source variable or default produced the raw value; the wrapped source
name is empty exactly when the field declares no source names. -/
theorem c3_amended_primary_env_name (envS : EnvStore) (update : Bool) (meta : StructMeta)
    (rest : List StructMeta) (cfg : Node) (cur : Val) (raw : String) (e : GoErr)
    (hupd : update = false ∨ meta.updatable = true)
    (hcur : getLeafVal meta.path cfg = some cur)
    (hraw : lookupFirstEnv envS meta.envList = some raw ∨
      (lookupFirstEnv envS meta.envList = none ∧ isZeroVal cur = true ∧
        meta.required = false ∧ meta.defValue = some raw))
    (hparse : parseValue meta.ty raw meta.separator meta.layout = .error e) :
    processMetas envS update (meta :: rest) cfg =
      .error (.parsingErr meta.fieldName (meta.envList.headD "") e) := by
  have hskip : ¬(update = true ∧ meta.updatable = false) := by
    rcases hupd with h | h <;> simp [h]
  rcases hraw with h | ⟨h1, h2, h3, h4⟩
  · simp [processMetas, resolveField, hskip, hcur, h, hparse]
  · simp [processMetas, resolveField, hskip, hcur, h1, h2, h3, h4, hparse]

theorem c3_amended_witness :
    processMetas [("PORT_B", "abc")] false [mkMeta tagC3 "Port" (.tInt 64) "" [0]] cfgC3 =
      .error (.parsingErr "Port" "PORT_A" (.parseIntErr "abc")) := by
  have h := c3_amended_primary_env_name [("PORT_B", "abc")] false
    (mkMeta tagC3 "Port" (.tInt 64) "" [0]) [] cfgC3 (.vInt 0) "abc" (.parseIntErr "abc")
    (Or.inl rfl) rfl (Or.inl rfl)
    (by simp [parseValue, validStructs, hasTextUnmarshaler, hasSetter, goParseInt,
      detectBase, parseNatDigits, hexDigitVal, mkMeta, tagC3])
  exact h

/-- C8: in an update-only pass every field with updatable=false is
skipped entirely (the state is passed on untouched even if its source
variable changed), while an updatable field's per-field resolution is
identical to a full pass's; concretely, after a full pass over X
(updatable) and Y (not updatable) and a change of both variables, an
update pass leaves X at the new value and Y at the value of the
initial pass. -/
theorem c8_update_only_scope :
    (∀ (envS : EnvStore) (meta : StructMeta) (rest : List StructMeta) (cfg : Node),
      meta.updatable = false →
      processMetas envS true (meta :: rest) cfg = processMetas envS true rest cfg) ∧
    (∀ (envS : EnvStore) (cfg : Node) (meta : StructMeta),
      meta.updatable = true →
      resolveField envS cfg true meta = resolveField envS cfg false meta) ∧
    readEnvVars envXY1 cfgXY false = .ok cfgXY1 ∧
    readEnvVars envXY2 cfgXY1 true = .ok cfgXY2 := by
  refine ⟨?_, ?_, ?_, ?_⟩
  · intro envS meta rest cfg h
    simp [processMetas, resolveField, h]
  · intro envS cfg meta h
    simp [resolveField, h]
  · simp [readEnvVars, readStructMetadata, runQueue, processFields, mkMeta, cfgXY, tagX, tagY,
      envXY1, cfgXY1, processMetas, resolveField, getLeafVal, lookupFirstEnv, lookupEnv,
      isZeroVal, Fields.get?, parseValue, validStructs, hasTextUnmarshaler, hasSetter,
      goParseInt, detectBase, parseNatDigits, hexDigitVal, setLeafVal, Fields.setNode]
  · simp [readEnvVars, readStructMetadata, runQueue, processFields, mkMeta, cfgXY1, tagX, tagY,
      envXY2, cfgXY2, processMetas, resolveField, getLeafVal, lookupFirstEnv, lookupEnv,
      isZeroVal, Fields.get?, parseValue, validStructs, hasTextUnmarshaler, hasSetter,
      goParseInt, detectBase, parseNatDigits, hexDigitVal, setLeafVal, Fields.setNode]

theorem c8_witness :
    processMetas envXY2 true [mkMeta tagY "Y" (.tInt 64) "" [1]] cfgXY1 =
      processMetas envXY2 true [] cfgXY1 ∧
    resolveField envXY2 cfgXY1 true (mkMeta tagX "X" (.tInt 64) "" [0]) =
      resolveField envXY2 cfgXY1 false (mkMeta tagX "X" (.tInt 64) "" [0]) :=
  ⟨c8_update_only_scope.1 envXY2 (mkMeta tagY "Y" (.tInt 64) "" [1]) [] cfgXY1 rfl,
   c8_update_only_scope.2.1 envXY2 cfgXY1 (mkMeta tagX "X" (.tInt 64) "" [0]) rfl⟩

/-- C9 counterexample: a field with no source names, default "8080",
required=true and a zero current value makes the full pass fail with
the require error — the default is never coerced — and an update-only
pass skips the (non-updatable) field entirely, leaving it untouched;
so such a field is not defaulted by every population pass as the
claim states. -/
theorem c9_counterexample :
    readEnvVars [] cfgC9r false = .error (.requireErr "Timeout") ∧
    readEnvVars [] cfgC9r true = .ok cfgC9r ∧
    tagC9r.env = none ∧ tagC9r.envDefault = some "8080" := by
  refine ⟨?_, ?_, rfl, rfl⟩
  · simp [readEnvVars, readStructMetadata, runQueue, processFields, mkMeta, cfgC9r, tagC9r,
      processMetas, resolveField, getLeafVal, lookupFirstEnv, isZeroVal, Fields.get?]
  · simp [readEnvVars, readStructMetadata, runQueue, processFields, mkMeta, cfgC9r, tagC9r,
      processMetas, resolveField]

/-- C9 amended: a field declaring no source names but declaring a
default is still discovered by the walker and still processed by a
full population pass (and by an update-only pass when marked
updatable): the walker emits its meta (with an empty source-name
list), and when the current value is the zero value and the field is
not marked required, the pass coerces the default string into the
field exactly as it would an environment value (the wrapping source
name being empty). A required such field fails with the require error
before the default is consulted, and a non-updatable one is skipped
entirely by an update-only pass. -/
theorem c9_default_without_env_names :
    (∀ (tag : Tag) (nm : String) (t : Ty) (v : Val),
      tag.env = none →
      readStructMetadata (.group (.fcons tag nm true (.leaf t v) .fnil)) =
        .ok [mkMeta tag nm t "" [0]] ∧ (mkMeta tag nm t "" [0]).envList = []) ∧
    (∀ (envS : EnvStore) (update : Bool) (meta : StructMeta) (rest : List StructMeta)
        (cfg : Node) (cur : Val) (d : String),
      (update = false ∨ meta.updatable = true) →
      meta.envList = [] → meta.defValue = some d → meta.required = false →
      getLeafVal meta.path cfg = some cur → isZeroVal cur = true →
      processMetas envS update (meta :: rest) cfg =
        (match parseValue meta.ty d meta.separator meta.layout with
         | .error e => .error (.parsingErr meta.fieldName "" e)
         | .ok v => processMetas envS update rest (setLeafVal meta.path cfg v))) := by
  constructor
  · intro tag nm t v htag
    constructor
    · simp [readStructMetadata, runQueue, processFields]
    · simp [mkMeta, htag]
  · intro envS update meta rest cfg cur d hupd hlist hdef hreq hcur hzero
    have hskip : ¬(update = true ∧ meta.updatable = false) := by
      rcases hupd with h | h <;> simp [h]
    cases hpv : parseValue meta.ty d meta.separator meta.layout <;>
      simp [processMetas, resolveField, hskip, hcur, hlist, hdef, hreq, hzero,
        lookupFirstEnv, hpv]

theorem c9_witness :
    readStructMetadata cfgC9 = .ok [mkMeta tagC9 "Host" .tString "" [0]] ∧
    processMetas [] false [mkMeta tagC9 "Host" .tString "" [0]] cfgC9 =
      .ok (setLeafVal [0] cfgC9 (.vStr "localhost")) := by
  constructor
  · exact (c9_default_without_env_names.1 tagC9 "Host" .tString (.vStr "") rfl).1
  · have h := c9_default_without_env_names.2 [] false
      (mkMeta tagC9 "Host" .tString "" [0]) [] cfgC9 (.vStr "") "localhost"
      (Or.inl rfl) rfl rfl rfl rfl rfl
    rw [h]
    simp [parseValue, validStructs, hasTextUnmarshaler, hasSetter, processMetas, mkMeta, tagC9]
